import Mathlib

/-!
Verification of the batch asset-normalizer scripts (`fix-names.py`,
`optimize-assets.py`, `get-names-files.py`, `get-names-from-glb.py`).

The filesystem is modelled as an association list of file paths to opaque
contents plus a list of existing directories.  A path is a directory
component list together with a file name.  The external optimizer is an
oracle giving, per input path, the subprocess exit status and the output it
writes (if any); filesystem operations that can raise `OSError` are guarded
by a failure oracle, and Python `try`/`except` blocks are translated to
explicit `Except` handling.
-/

/-- Boolean lexicographic strict order on character lists, by code point. -/
def lcLt : List Char → List Char → Bool
  | [], [] => false
  | [], _ :: _ => true
  | _ :: _, [] => false
  | a :: as, b :: bs =>
    if a.toNat < b.toNat then true
    else if b.toNat < a.toNat then false
    else lcLt as bs

/-- Strict lexicographic order on strings (Python `str` comparison). -/
def strLtB (a b : String) : Bool := lcLt a.data b.data

/-- Non-strict order on strings derived from `strLtB`. -/
def strLeB (a b : String) : Bool := !(strLtB b a)

/-- Lexicographic non-strict order on lists of strings (path components),
matching how Python orders `Path` values by their parts. -/
def listStrLeB : List String → List String → Bool
  | [], _ => true
  | _ :: _, [] => false
  | a :: as, b :: bs =>
    if strLtB a b then true
    else if strLtB b a then false
    else listStrLeB as bs

/-- `clHasPre pre l` is true when `pre` is a prefix of `l`. -/
def clHasPre : List Char → List Char → Bool
  | [], _ => true
  | _ :: _, [] => false
  | a :: as, b :: bs => if a = b then clHasPre as bs else false

/-- `clHasSuf sfx l` is true when `sfx` is a suffix of `l`
(models Python `str.endswith` on the underlying characters). -/
def clHasSuf (sfx l : List Char) : Bool := clHasPre sfx.reverse l.reverse

/-- `lsHasPre pre l` is true when the component list `pre` is a prefix of
`l`.  Models both `Path.relative_to` succeeding and the
`BACKUP_DIR in file_path.parents or file_path.parent == BACKUP_DIR` test. -/
def lsHasPre : List String → List String → Bool
  | [], _ => true
  | _ :: _, [] => false
  | a :: as, b :: bs => if a = b then lsHasPre as bs else false

/-- Insert an element into a list ordered by the boolean comparator `le`. -/
def insLe (le : α → α → Bool) (a : α) : List α → List α
  | [] => [a]
  | b :: l => if le a b then a :: b :: l else b :: insLe le a l

/-- Insertion sort with boolean comparator `le` (models Python `sorted`). -/
def sortLe (le : α → α → Bool) : List α → List α
  | [] => []
  | a :: l => insLe le a (sortLe le l)

/-- A file path: directory components from the filesystem root, plus the
file name (the last component).  Mirrors `pathlib.Path` split into
`parent` and `name`. -/
structure FPath where
  dir : List String
  name : String
deriving DecidableEq

/-- Order on paths: Python compares `Path` values by their component
sequence. -/
def pathLeB (p q : FPath) : Bool :=
  listStrLeB (p.dir ++ [p.name]) (q.dir ++ [q.name])

/-- Opaque file contents (distinct values model distinct byte strings). -/
abbrev Content := Nat

/-- Filesystem state: files as an association list from path to contents,
plus the set of existing directories. -/
structure FS where
  files : List (FPath × Content)
  dirs : List (List String)
deriving DecidableEq

/-- `ASSETS_DIR = Path("./public/assets")` as components. -/
def ASSETS_DIR : List String := ["public", "assets"]

/-- `BACKUP_DIR = ASSETS_DIR / "originals"` as components. -/
def BACKUP_DIR : List String := ["public", "assets", "originals"]

def FS.lookup (fs : FS) (p : FPath) : Option Content :=
  (fs.files.find? (fun e => e.1 = p)).map Prod.snd

/-- `Path.exists()` for a file. -/
def FS.hasFile (fs : FS) (p : FPath) : Bool := (fs.lookup p).isSome

/-- `Path.unlink()`: remove the file at `p`. -/
def FS.removeFile (fs : FS) (p : FPath) : FS :=
  ⟨fs.files.filter (fun e => !(e.1 = p : Bool)), fs.dirs⟩

/-- Create or overwrite the file at `p` with contents `c`. -/
def FS.writeFile (fs : FS) (p : FPath) (c : Content) : FS :=
  ⟨(p, c) :: (fs.removeFile p).files, fs.dirs⟩

/-- `shutil.move(src, dst)` for files: the contents at `src` end up at
`dst`, overwriting any file there; no-op if `src` is missing (the real
call would raise, but every call site checks existence first). -/
def FS.moveFile (fs : FS) (src dst : FPath) : FS :=
  match fs.lookup src with
  | none => fs
  | some c => (fs.removeFile src).writeFile dst c

/-- `Path.mkdir(exist_ok=True)` (no parents). -/
def FS.addDir (fs : FS) (d : List String) : FS :=
  if d ∈ fs.dirs then fs else ⟨fs.files, d :: fs.dirs⟩

/-- All ancestors of a component list, shortest first, ending with the
list itself. -/
def ancestorsOf (d : List String) : List (List String) :=
  (List.range (d.length + 1)).map (fun n => d.take n)

/-- `Path.mkdir(parents=True, exist_ok=True)`. -/
def FS.mkdirParents (fs : FS) (d : List String) : FS :=
  (ancestorsOf d).foldl FS.addDir fs

/-- The paths of all files in the state (what a recursive scan sees). -/
def FS.paths (fs : FS) : List FPath := fs.files.map Prod.fst

/-- Python `str.replace(pat, rep)` on character lists, with explicit fuel;
scans left to right, replacing each non-overlapping occurrence. -/
def replaceAllAux (pat rep : List Char) : Nat → List Char → List Char
  | 0, l => l
  | _ + 1, [] => []
  | fuel + 1, c :: rest =>
    if pat ≠ [] ∧ clHasPre pat (c :: rest) then
      rep ++ replaceAllAux pat rep fuel ((c :: rest).drop pat.length)
    else
      c :: replaceAllAux pat rep fuel rest

/-- Python `str.replace(pat, rep)` for a non-empty `pat`. -/
def replaceAll (pat rep l : List Char) : List Char :=
  replaceAllAux pat rep l.length l

/-- `pathlib` name splitting: returns `(stem, suffix)` character lists.
The suffix is everything from the last dot on, provided that dot is
neither the first nor the last character of the name. -/
def splitExt (cs : List Char) : List Char × List Char :=
  match cs.reverse.findIdx? (fun c => c = '.') with
  | none => (cs, [])
  | some rj =>
    let i := cs.length - 1 - rj
    if 0 < i ∧ i < cs.length - 1 then (cs.take i, cs.drop i) else (cs, [])

/-- The characters of the marker `"-optimized"`. -/
def optMarker : List Char := ['-', 'o', 'p', 't', 'i', 'm', 'i', 'z', 'e', 'd']

/-- The characters of `"-temp-optimized"`. -/
def tempMarker : List Char :=
  ['-', 't', 'e', 'm', 'p', '-', 'o', 'p', 't', 'i', 'm', 'i', 'z', 'e', 'd']

/-- The characters of `".glb"`. -/
def glbExt : List Char := ['.', 'g', 'l', 'b']

/-- The characters of `".gltf"`. -/
def gltfExt : List Char := ['.', 'g', 'l', 't', 'f']

/-- `fix-names.py` `get_original_name`: drop every occurrence of
`-optimized` from the stem and re-attach the suffix, in the same parent
directory. -/
def get_original_name (p : FPath) : FPath :=
  let st := (splitExt p.name.data).1
  let sfx := (splitExt p.name.data).2
  ⟨p.dir, String.mk (replaceAll optMarker [] st ++ sfx)⟩

/-- `optimize-assets.py` `process_file` temporary output path:
`file_path.stem + "-temp-optimized" + ext` in the same directory. -/
def tempPathFor (p : FPath) : FPath :=
  let st := (splitExt p.name.data).1
  let sfx := (splitExt p.name.data).2
  ⟨p.dir, String.mk (st ++ tempMarker ++ sfx)⟩

/-- Backup destination for a file, shared by both scripts: mirror the
path relative to the assets root under the backup root when
`relative_to` succeeds, else fall back to a flat path directly under the
backup root. -/
def backupPathFor (p : FPath) : FPath :=
  if lsHasPre ASSETS_DIR p.dir then
    ⟨BACKUP_DIR ++ p.dir.drop ASSETS_DIR.length, p.name⟩
  else
    ⟨BACKUP_DIR, p.name⟩

/-- A path lies in the recursive scan of the assets root and outside the
backup subtree (`rglob` over `ASSETS_DIR` with the
`BACKUP_DIR in file_path.parents or file_path.parent == BACKUP_DIR`
exclusion). -/
def inScanScope (p : FPath) : Bool :=
  lsHasPre ASSETS_DIR p.dir && !(lsHasPre BACKUP_DIR p.dir)

/-- `fix-names.py` `find_optimized_files`: for each of `.glb`, `.gltf`,
collect files under the assets root whose name matches
`*-optimized{ext}`, skipping the backup subtree, then sort. -/
def find_optimized_files (fs : FS) : List FPath :=
  sortLe pathLeB
    ((fs.paths.filter
        (fun p => inScanScope p && clHasSuf (optMarker ++ glbExt) p.name.data)) ++
     (fs.paths.filter
        (fun p => inScanScope p && clHasSuf (optMarker ++ gltfExt) p.name.data)))

/-- `optimize-assets.py` `find_files_to_process`: same scan with the bare
extension patterns `*{ext}`. -/
def find_files_to_process (fs : FS) : List FPath :=
  sortLe pathLeB
    ((fs.paths.filter (fun p => inScanScope p && clHasSuf glbExt p.name.data)) ++
     (fs.paths.filter (fun p => inScanScope p && clHasSuf gltfExt p.name.data)))

/-- A filesystem mutation that can raise `OSError` in Python. -/
inductive FsOp where
  | mv : FPath → FPath → FsOp
  | rm : FPath → FsOp
  | mk : List String → FsOp
deriving DecidableEq

/-- Failure oracle: which filesystem operations raise. -/
abbrev FailOracle := FsOp → Bool

/-- The oracle under which no filesystem operation raises. -/
def noFail : FailOracle := fun _ => false

/-- `shutil.move` under the failure oracle; on error the state is
unchanged and the exception carries it. -/
def FS.moveE (bad : FailOracle) (fs : FS) (src dst : FPath) : Except FS FS :=
  if bad (FsOp.mv src dst) then Except.error fs else Except.ok (fs.moveFile src dst)

/-- `Path.unlink` under the failure oracle. -/
def FS.removeE (bad : FailOracle) (fs : FS) (p : FPath) : Except FS FS :=
  if bad (FsOp.rm p) then Except.error fs else Except.ok (fs.removeFile p)

/-- The shared backup-path block: under a bare `try`, compute the path of
the file relative to the assets root, create the mirrored subdirectory
under the backup root, and return the mirrored backup path; on any
exception (`relative_to` failing or `mkdir` raising) fall back to a flat
path directly under the backup root.  Returns the updated state and the
chosen backup path; the bare `except:` means this block never raises. -/
def backupStep (bad : FailOracle) (fs : FS) (orig : FPath) : FS × FPath :=
  if lsHasPre ASSETS_DIR orig.dir then
    let sub := BACKUP_DIR ++ orig.dir.drop ASSETS_DIR.length
    if bad (FsOp.mk sub) then (fs, ⟨BACKUP_DIR, orig.name⟩)
    else (fs.mkdirParents sub, ⟨sub, orig.name⟩)
  else (fs, ⟨BACKUP_DIR, orig.name⟩)

/-- The body of `fix-names.py` `process_file` with `dry_run=False`, i.e.
the code inside the outer `try`: back up or delete a pre-existing file at
the destination, then rename the optimized file onto it.  An error result
is the state at the uncaught exception. -/
def processFileFixCore (bad : FailOracle) (fs : FS) (p : FPath) : Except FS FS := do
  let orig := get_original_name p
  if fs.hasFile orig then
    let r := backupStep bad fs orig
    let fs2 ←
      if !(r.1.hasFile r.2) then r.1.moveE bad orig r.2
      else r.1.removeE bad orig
    fs2.moveE bad p orig
  else
    fs.moveE bad p orig

/-- `fix-names.py` `process_file` (`dry_run=False`): the outer
`try`/`except Exception` converts any raise into a `False` return. -/
def process_file_fix (bad : FailOracle) (fs : FS) (p : FPath) : FS × Bool :=
  match processFileFixCore bad fs p with
  | Except.ok fs' => (fs', true)
  | Except.error fs' => (fs', false)

/-- External optimizer oracle: per input file, whether the
`npx gltf-transform optimize` subprocess reports success (timeouts and
launch errors count as failure), and the contents it writes to the output
path, if any. -/
structure OptOracle where
  rcOk : FPath → Bool
  written : FPath → Option Content

/-- `optimize-assets.py` `optimize_file`: run the tool, then report
success only if the subprocess succeeded and the output path exists.
Size bookkeeping is not modelled (contents are opaque). -/
def optimize_file (orc : OptOracle) (fs : FS) (inp outp : FPath) : FS × Bool :=
  let fs1 :=
    match orc.written inp with
    | some c => fs.writeFile outp c
    | none => fs
  if orc.rcOk inp && fs1.hasFile outp then (fs1, true) else (fs1, false)

/-- `optimize-assets.py` `process_file`: optimize into a temporary file;
on failure delete any partial temporary output and report failure; on
success back up (or delete) the original and rename the temporary file
over it.  Only the backup-path block is inside a `try`; the moves and
unlinks are not, so their failures propagate (`Except.error`). -/
def process_file_opt (bad : FailOracle) (orc : OptOracle) (fs : FS) (p : FPath) :
    Except FS (FS × Bool) := do
  let temp := tempPathFor p
  let r := optimize_file orc fs p temp
  if !r.2 then
    if r.1.hasFile temp then
      let fs2 ← r.1.removeE bad temp
      return (fs2, false)
    else
      return (r.1, false)
  else
    let rb := backupStep bad r.1 p
    let fs3 ←
      if !(rb.1.hasFile rb.2) then rb.1.moveE bad p rb.2
      else rb.1.removeE bad p
    let fs4 ← fs3.moveE bad temp p
    return (fs4, true)

/-- The per-file loop of `fix-names.py` `main`: accumulate a success
count and the list of failed files; a per-file failure never stops the
loop. -/
def runFixBatch (bad : FailOracle) :
    FS → Nat → List FPath → List FPath → FS × Nat × List FPath
  | fs, n, failed, [] => (fs, n, failed)
  | fs, n, failed, p :: rest =>
    match process_file_fix bad fs p with
    | (fs', true) => runFixBatch bad fs' (n + 1) failed rest
    | (fs', false) => runFixBatch bad fs' n (failed ++ [p]) rest

/-- The per-file loop of `optimize-assets.py` `main`: no `try` around
`process_file`, so an uncaught exception aborts the whole loop
(`Except.error` carries the state, count and failure list at abort). -/
def runOptBatch (bad : FailOracle) (orc : OptOracle) :
    FS → Nat → List FPath → List FPath →
      Except (FS × Nat × List FPath) (FS × Nat × List FPath)
  | fs, n, failed, [] => Except.ok (fs, n, failed)
  | fs, n, failed, p :: rest =>
    match process_file_opt bad orc fs p with
    | Except.error e => Except.error (e, n, failed)
    | Except.ok (fs', true) => runOptBatch bad orc fs' (n + 1) failed rest
    | Except.ok (fs', false) => runOptBatch bad orc fs' n (failed ++ [p]) rest

/-- Python whitespace stripped by `str.strip()` (ASCII subset). -/
def pyWs : List Char := [' ', '\t', '\n', '\x0d', '\x0b', '\x0c']

/-- `str.strip()`. -/
def stripChars (cs : List Char) : List Char :=
  ((cs.dropWhile (fun c => c ∈ pyWs)).reverse.dropWhile (fun c => c ∈ pyWs)).reverse

/-- `resposta.strip().lower()` (ASCII lowering; the recognized tokens are
all ASCII). -/
def normalizeAnswer (s : String) : String :=
  String.mk ((stripChars s.data).map Char.toLower)

/-- The affirmative tokens of `fix-names.py`. -/
def yesTokens : List String := ["s", "sim", "y", "yes"]

/-- The confirmation test `resposta in ['s', 'sim', 'y', 'yes']`. -/
def isYes (s : String) : Bool := normalizeAnswer s ∈ yesTokens

/-- Outcome of a whole run: final state, process exit code, success
count, and the failed-file list of the summary. -/
structure RunResult where
  fs : FS
  exitCode : Nat
  okCount : Nat
  failed : List FPath
deriving DecidableEq

/-- `fix-names.py` `main`.  `answer` is the operator's reply to the
confirmation prompt, `none` meaning the read raised (unreadable stream);
both the exit-1 missing-root path, the nothing-to-do path, the
cancellation paths, and the confirmed batch are modelled.  Printing is
not modelled. -/
def mainFix (bad : FailOracle) (fs : FS) (answer : Option String) : RunResult :=
  if ASSETS_DIR ∈ fs.dirs then
    let files := find_optimized_files fs
    if files = [] then ⟨fs, 0, 0, []⟩
    else
      match answer with
      | none => ⟨fs, 0, 0, []⟩
      | some a =>
        if isYes a then
          let fs0 := fs.addDir BACKUP_DIR
          let r := runFixBatch bad fs0 0 [] files
          ⟨r.1, 0, r.2.1, r.2.2⟩
        else ⟨fs, 0, 0, []⟩
  else ⟨fs, 1, 0, []⟩

/-- `optimize-assets.py` `main`: note there is no confirmation prompt;
after the missing-root check it immediately creates the backup directory
and processes every discovered file.  The `gltf-transform` availability
check is modelled as succeeding (it touches no file under the assets
root either way). -/
def mainOpt (bad : FailOracle) (orc : OptOracle) (fs : FS) :
    Except (FS × Nat × List FPath) RunResult :=
  if ASSETS_DIR ∈ fs.dirs then
    let fs0 := fs.addDir BACKUP_DIR
    let files := find_files_to_process fs0
    if files = [] then Except.ok ⟨fs0, 0, 0, []⟩
    else
      match runOptBatch bad orc fs0 0 [] files with
      | Except.error e => Except.error e
      | Except.ok (fs1, n, failed) => Except.ok ⟨fs1, 0, n, failed⟩
  else Except.ok ⟨fs, 1, 0, []⟩

/-- An immediate directory entry as seen by `os.listdir`: a name and
whether `os.path.isfile` holds for it.  `os.listdir` does not recurse,
so subdirectory contents are not entries. -/
structure DirEntry where
  name : String
  isFileFlag : Bool
deriving DecidableEq

/-- `get-names-files.py` `listar_arquivos`: keep regular files only,
then sort (Python string sort on names). -/
def listar_arquivos (entries : List DirEntry) : List String :=
  sortLe strLeB ((entries.filter (fun e => e.isFileFlag)).map DirEntry.name)

/-- `nome.lower().endswith(".glb")` (ASCII lowering). -/
def lowerEndsGlb (n : String) : Bool :=
  clHasSuf glbExt (n.data.map Char.toLower)

/-- `get-names-from-glb.py` `listar_glb`: keep entries whose name
lowercases to a `.glb` suffix — with no regular-file check — then
sort. -/
def listar_glb (entries : List DirEntry) : List String :=
  sortLe strLeB ((entries.map DirEntry.name).filter lowerEndsGlb)

def hexDigitChar (n : Nat) : Char :=
  if n < 10 then Char.ofNat (48 + n) else Char.ofNat (87 + n)

/-- Modelled from the Python standard library: the escaping used by
`json.dump` with `ensure_ascii=False` — only the quote, the backslash
and control characters are escaped; everything else, non-ASCII included,
is written literally. -/
def jsonEscapeChar (c : Char) : List Char :=
  if c = '\x22' then ['\\', '\x22']
  else if c = '\\' then ['\\', '\\']
  else if c = '\n' then ['\\', 'n']
  else if c = '\t' then ['\\', 't']
  else if c = '\x0d' then ['\\', 'r']
  else if c = '\x08' then ['\\', 'b']
  else if c = '\x0c' then ['\\', 'f']
  else if c.toNat < 32 then
    ['\\', 'u', '0', '0', hexDigitChar (c.toNat / 16), hexDigitChar (c.toNat % 16)]
  else [c]

/-- A JSON string literal for `s`. -/
def jsonQuote (s : String) : String :=
  String.mk ('\x22' :: ((s.data.map jsonEscapeChar).flatten ++ ['\x22']))

/-- The separator between elements of a JSON array at `indent=2`. -/
def jsonSepStr : String := ",\n  "

/-- Modelled from the Python standard library: `json.dump` of a list of
strings with `indent=2, ensure_ascii=False`. -/
def jsonDumpIndent2 (ns : List String) : String :=
  match ns with
  | [] => "[]"
  | _ :: _ => "[\n  " ++ String.intercalate jsonSepStr (ns.map jsonQuote) ++ "\n]"

/-- The text `get-names-files.py` writes to `automations/arquivos.json`
(the file is opened with `encoding="utf-8"`, so the characters of this
string are UTF-8 encoded on disk). -/
def arquivosJsonOutput (entries : List DirEntry) : String :=
  jsonDumpIndent2 (listar_arquivos entries)

/-- The text `get-names-from-glb.py` writes to `modelos.json`. -/
def modelosJsonOutput (entries : List DirEntry) : String :=
  jsonDumpIndent2 (listar_glb entries)

/-- The name of a discovered `fix-names.py` file matches one of the two
`*-optimized{ext}` patterns. -/
def matchedOptName (p : FPath) : Bool :=
  clHasSuf (optMarker ++ glbExt) p.name.data || clHasSuf (optMarker ++ gltfExt) p.name.data

/-- A path the rename-fix discovery would return: in scope and matching. -/
def matchedNameB (p : FPath) : Bool := inScanScope p && matchedOptName p

/-- The name of a discovered `optimize-assets.py` file matches one of the
two `*{ext}` patterns. -/
def matchedExtName (p : FPath) : Bool :=
  clHasSuf glbExt p.name.data || clHasSuf gltfExt p.name.data

/-- A concrete state: one discovered file plus an original at the
destination path, under the assets root. -/
def fsW5 : FS :=
  ⟨[(⟨ASSETS_DIR, "car-optimized.glb"⟩, 10), (⟨ASSETS_DIR, "car.glb"⟩, 50)],
    [ASSETS_DIR]⟩

/-- A concrete directory: two case-variant `.glb` files, an entry named
like a `.glb` file that is a subdirectory, and an unrelated file. -/
def dC10 : List DirEntry :=
  [⟨"MODEL.GLB", true⟩, ⟨"kart.Glb", true⟩, ⟨"track.glb", false⟩, ⟨"readme.txt", true⟩]

def pW1 : FPath := ⟨ASSETS_DIR, "car-optimized.glb"⟩

def pW1o : FPath := ⟨ASSETS_DIR, "track.glb"⟩

def fsW1o : FS := ⟨[(pW1o, 7)], [ASSETS_DIR]⟩

def orcW1 : OptOracle := ⟨fun _ => true, fun _ => some 3⟩

def fsW2 : FS := ⟨[(pW1o, 7)], [ASSETS_DIR]⟩

def orcW2 : OptOracle := ⟨fun _ => false, fun _ => none⟩

/-- Modelled from the spec: the destination described by the claim —
exactly the fixed trailing `-optimized` marker removed from the stem,
with the rest of the stem preserved unchanged. -/
def specStripSuffixDest (p : FPath) : FPath :=
  let st := (splitExt p.name.data).1
  let sfx := (splitExt p.name.data).2
  if clHasSuf optMarker st then
    ⟨p.dir, String.mk (st.take (st.length - optMarker.length) ++ sfx)⟩
  else ⟨p.dir, String.mk (st ++ sfx)⟩

def pC4 : FPath := ⟨ASSETS_DIR, "a-optimized-b-optimized.glb"⟩

def paC6 : FPath := ⟨ASSETS_DIR, "a.glb"⟩

def pbC6 : FPath := ⟨ASSETS_DIR, "b.glb"⟩

def fsC6 : FS := ⟨[(paC6, 1), (pbC6, 2)], [ASSETS_DIR]⟩

def orcC6 : OptOracle := ⟨fun _ => true, fun _ => some 9⟩

/-- One failing filesystem operation: any `shutil.move` whose source is
`a.glb` raises (e.g. a permission error moving it into the backup). -/
def badC6 : FailOracle := fun op =>
  match op with
  | FsOp.mv src _ => (src = paC6 : Bool)
  | _ => false

/-- Claim C6 counterexample: in the optimization workflow a move error
on the first file is not caught anywhere — the whole run aborts
(`Except.error`), the second file `b.glb` is never processed (still has
its original contents) and is not reported in the failure list, which is
empty at the abort.  So a per-file filesystem error does abort the whole
run there, contradicting the claim for the optimization workflow. -/
def fsE6 : FS :=
  ⟨[(⟨ASSETS_DIR, "a-temp-optimized.glb"⟩, 9), (paC6, 1), (pbC6, 2)],
    [["public"], [], BACKUP_DIR, ASSETS_DIR]⟩

def fsE6b : FS :=
  ⟨[(⟨ASSETS_DIR, "a-temp-optimized.glb"⟩, 9), (paC6, 1), (pbC6, 2)],
    [BACKUP_DIR, ["public"], [], ASSETS_DIR]⟩

/-- The filesystem after an optimize run, whether it completed or
aborted. -/
def optRunFS : Except (FS × Nat × List FPath) RunResult → FS
  | Except.error e => e.1
  | Except.ok r => r.fs

def fsC7 : FS := ⟨[], [ASSETS_DIR]⟩

def orcC7 : OptOracle := ⟨fun _ => true, fun _ => none⟩

def pC8 : FPath := ⟨ASSETS_DIR, "-opt-optimizedimized-optimized.glb"⟩

def fsC8 : FS := ⟨[(pC8, 1)], [ASSETS_DIR]⟩

theorem mem_insLe (le : α → α → Bool) (a x : α) (l : List α) :
    x ∈ insLe le a l ↔ x = a ∨ x ∈ l := by
  induction l with
  | nil => simp [insLe]
  | cons b t ih =>
    simp only [insLe]
    by_cases h : le a b = true
    · rw [if_pos h]
      simp
    · rw [if_neg h]
      simp only [List.mem_cons, ih]
      tauto

theorem mem_sortLe (le : α → α → Bool) (x : α) (l : List α) :
    x ∈ sortLe le l ↔ x ∈ l := by
  induction l with
  | nil => simp [sortLe]
  | cons a t ih => simp [sortLe, mem_insLe, ih]

theorem pairwise_insLe (le : α → α → Bool)
    (htot : ∀ a b, le a b = true ∨ le b a = true)
    (htr : ∀ a b c, le a b = true → le b c = true → le a c = true)
    (a : α) (l : List α) (hl : l.Pairwise (fun x y => le x y = true)) :
    (insLe le a l).Pairwise (fun x y => le x y = true) := by
  induction l with
  | nil => simp [insLe]
  | cons b t ih =>
    rcases List.pairwise_cons.mp hl with ⟨hb, ht⟩
    simp only [insLe]
    by_cases h : le a b = true
    · rw [if_pos h]
      refine List.pairwise_cons.mpr ⟨?_, hl⟩
      intro y hy
      rcases List.mem_cons.mp hy with rfl | hyt
      · exact h
      · exact htr a b y h (hb y hyt)
    · rw [if_neg h]
      have hba : le b a = true := by
        rcases htot a b with h1 | h1
        · exact absurd h1 h
        · exact h1
      refine List.pairwise_cons.mpr ⟨?_, ih ht⟩
      intro y hy
      rcases (mem_insLe le a y t).mp hy with rfl | hyt
      · exact hba
      · exact hb y hyt

theorem pairwise_sortLe (le : α → α → Bool)
    (htot : ∀ a b, le a b = true ∨ le b a = true)
    (htr : ∀ a b c, le a b = true → le b c = true → le a c = true)
    (l : List α) :
    (sortLe le l).Pairwise (fun x y => le x y = true) := by
  induction l with
  | nil => simp [sortLe]
  | cons a t ih => exact pairwise_insLe le htot htr a (sortLe le t) ih

/-- Characters with equal code points are equal. -/
theorem char_eq_of_toNat_eq {a b : Char} (h : a.toNat = b.toNat) : a = b := by
  apply Char.ext
  exact UInt32.toNat.inj h

theorem lcLt_asymm_eq : ∀ a b : List Char,
    lcLt a b = false → lcLt b a = false → a = b := by
  intro a
  induction a with
  | nil => intro b h1 _; cases b with
    | nil => rfl
    | cons c cs => simp [lcLt] at h1
  | cons c cs ih =>
    intro b h1 h2
    cases b with
    | nil => simp [lcLt] at h2
    | cons d ds =>
      simp only [lcLt] at h1 h2
      by_cases hcd : c.toNat < d.toNat
      · simp [hcd] at h1
      · by_cases hdc : d.toNat < c.toNat
        · simp [hdc, hcd] at h2
        · have hv : c.toNat = d.toNat := by omega
          have hc : c = d := char_eq_of_toNat_eq hv
          subst hc
          simp only [hcd, if_neg, lt_irrefl] at h1
          have : lcLt cs ds = false := by
            simpa [hcd] using h1
          have h2' : lcLt ds cs = false := by
            simpa [hcd] using h2
          rw [ih ds this h2']

theorem lcLt_trans : ∀ a b c : List Char,
    lcLt a b = true → lcLt b c = true → lcLt a c = true := by
  intro a
  induction a with
  | nil =>
    intro b c h1 h2
    cases b with
    | nil => simp [lcLt] at h1
    | cons d ds =>
      cases c with
      | nil => simp [lcLt] at h2
      | cons e es => simp [lcLt]
  | cons x xs ih =>
    intro b c h1 h2
    cases b with
    | nil => simp [lcLt] at h1
    | cons y ys =>
      cases c with
      | nil => simp [lcLt] at h2
      | cons z zs =>
        simp only [lcLt] at h1 h2 ⊢
        by_cases hxy : x.toNat < y.toNat
        · by_cases hyz : y.toNat < z.toNat
          · have hxz : x.toNat < z.toNat := Nat.lt_trans hxy hyz
            simp [hxz]
          · by_cases hzy : z.toNat < y.toNat
            · simp [hxy, hyz, hzy] at h2
            · have : y.toNat = z.toNat := by omega
              have hxz : x.toNat < z.toNat := by omega
              simp [hxz]
        · by_cases hyx : y.toNat < x.toNat
          · simp [hxy, hyx] at h1
          · have hxyv : x.toNat = y.toNat := by omega
            by_cases hyz : y.toNat < z.toNat
            · have hxz : x.toNat < z.toNat := by omega
              simp [hxz]
            · by_cases hzy : z.toNat < y.toNat
              · simp [hyz, hzy] at h2
              · have hyzv : y.toNat = z.toNat := by omega
                have hxz : ¬ x.toNat < z.toNat := by omega
                have hzx : ¬ z.toNat < x.toNat := by omega
                simp only [hxz, hzx, if_neg, if_false]
                have h1' : lcLt xs ys = true := by simpa [hxy, hyx] using h1
                have h2' : lcLt ys zs = true := by simpa [hyz, hzy] using h2
                simpa using ih ys zs h1' h2'

theorem strLtB_asymm_eq (a b : String) :
    strLtB a b = false → strLtB b a = false → a = b := by
  intro h1 h2
  have : a.data = b.data := lcLt_asymm_eq a.data b.data h1 h2
  cases a; cases b
  exact congrArg String.mk this

theorem strLtB_trans (a b c : String) :
    strLtB a b = true → strLtB b c = true → strLtB a c = true :=
  lcLt_trans a.data b.data c.data

theorem listStrLeB_total : ∀ a b : List String,
    listStrLeB a b = true ∨ listStrLeB b a = true := by
  intro a
  induction a with
  | nil => intro b; left; simp [listStrLeB]
  | cons x xs ih =>
    intro b
    cases b with
    | nil => right; simp [listStrLeB]
    | cons y ys =>
      by_cases hxy : strLtB x y = true
      · left; simp [listStrLeB, hxy]
      · by_cases hyx : strLtB y x = true
        · right; simp [listStrLeB, hyx]
        · have hx : strLtB x y = false := by simpa using hxy
          have hy : strLtB y x = false := by simpa using hyx
          rcases ih ys with h | h
          · left; simp [listStrLeB, hx, hy, h]
          · right; simp [listStrLeB, hx, hy, h]

theorem listStrLeB_trans : ∀ a b c : List String,
    listStrLeB a b = true → listStrLeB b c = true → listStrLeB a c = true := by
  intro a
  induction a with
  | nil => intro b c h1 h2; simp [listStrLeB]
  | cons x xs ih =>
    intro b c h1 h2
    cases b with
    | nil => simp [listStrLeB] at h1
    | cons y ys =>
      cases c with
      | nil => simp [listStrLeB] at h2
      | cons z zs =>
        simp only [listStrLeB] at h1 h2 ⊢
        by_cases hxy : strLtB x y = true
        · by_cases hyz : strLtB y z = true
          · simp [strLtB_trans x y z hxy hyz]
          · by_cases hzy : strLtB z y = true
            · simp [hyz, hzy] at h2
            · have : y = z :=
                strLtB_asymm_eq y z (by simpa using hyz) (by simpa using hzy)
              subst this
              simp [hxy]
        · by_cases hyx : strLtB y x = true
          · simp [hxy, hyx] at h1
          · have hxyeq : x = y :=
              strLtB_asymm_eq x y (by simpa using hxy) (by simpa using hyx)
            subst hxyeq
            by_cases hyz : strLtB x z = true
            · simp [hyz]
            · by_cases hzy : strLtB z x = true
              · simp [hyz, hzy] at h2
              · have h1' : listStrLeB xs ys = true := by
                  simpa [hxy, hyx] using h1
                have h2' : listStrLeB ys zs = true := by
                  simpa [hyz, hzy] using h2
                simp [hyz, hzy, ih ys zs h1' h2']

theorem find?_filter_out (l : List (FPath × Content)) (p q : FPath) (h : q ≠ p) :
    (l.filter (fun e => !(e.1 = p : Bool))).find? (fun e => (e.1 = q : Bool)) =
      l.find? (fun e => (e.1 = q : Bool)) := by
  induction l with
  | nil => rfl
  | cons e t ih =>
    by_cases hp : e.1 = p
    · have hq' : ¬ ((fun e : FPath × Content => (e.1 = q : Bool)) e = true) := by
        simp only [decide_eq_true_eq]
        intro he
        apply h
        rw [← he, hp]
      rw [List.filter_cons_of_neg (by simp [hp]), List.find?_cons_of_neg t hq', ih]
    · rw [List.filter_cons_of_pos (by simp [hp])]
      by_cases hq : e.1 = q
      · rw [List.find?_cons_of_pos (List.filter (fun e => !(e.1 = p : Bool)) t) (by simp [hq]), List.find?_cons_of_pos t (by simp [hq])]
      · rw [List.find?_cons_of_neg (List.filter (fun e => !(e.1 = p : Bool)) t) (by simp [hq]), List.find?_cons_of_neg t (by simp [hq]), ih]

theorem lookup_removeFile_ne (fs : FS) (p q : FPath) (h : q ≠ p) :
    (fs.removeFile p).lookup q = fs.lookup q := by
  simp only [FS.lookup, FS.removeFile]
  rw [find?_filter_out fs.files p q h]

theorem lookup_removeFile_self (fs : FS) (p : FPath) :
    (fs.removeFile p).lookup p = none := by
  simp only [FS.lookup, FS.removeFile]
  rw [List.find?_eq_none.mpr]
  · rfl
  · intro e he
    have := List.of_mem_filter he
    simp only [Bool.not_eq_true'] at this
    simp [this]

theorem lookup_writeFile_self (fs : FS) (p : FPath) (c : Content) :
    (fs.writeFile p c).lookup p = some c := by
  simp [FS.lookup, FS.writeFile, List.find?_cons]

theorem lookup_writeFile_ne (fs : FS) (p q : FPath) (c : Content) (h : q ≠ p) :
    (fs.writeFile p c).lookup q = fs.lookup q := by
  simp only [FS.lookup, FS.writeFile]
  rw [List.find?_cons_of_neg (fs.removeFile p).files (by simp only [decide_eq_true_eq]; intro he; exact h he.symm)]
  have : (fs.removeFile p).lookup q = fs.lookup q := lookup_removeFile_ne fs p q h
  simpa [FS.lookup] using this

theorem lookup_addDir (fs : FS) (d : List String) (q : FPath) :
    (fs.addDir d).lookup q = fs.lookup q := by
  simp only [FS.addDir]
  by_cases h : d ∈ fs.dirs
  · rw [if_pos h]
  · rw [if_neg h]
    rfl

theorem files_addDir (fs : FS) (d : List String) :
    (fs.addDir d).files = fs.files := by
  simp only [FS.addDir]
  by_cases h : d ∈ fs.dirs
  · rw [if_pos h]
  · rw [if_neg h]

theorem files_mkdirParents (fs : FS) (d : List String) :
    (fs.mkdirParents d).files = fs.files := by
  simp only [FS.mkdirParents]
  generalize ancestorsOf d = l
  induction l generalizing fs with
  | nil => rfl
  | cons x t ih =>
    simp only [List.foldl_cons]
    rw [ih (fs.addDir x), files_addDir]

theorem lookup_mkdirParents (fs : FS) (d : List String) (q : FPath) :
    (fs.mkdirParents d).lookup q = fs.lookup q := by
  simp only [FS.lookup, files_mkdirParents]

theorem backupStep_noFail (fs : FS) (orig : FPath) :
    (backupStep noFail fs orig).2 = backupPathFor orig ∧
      (backupStep noFail fs orig).1.files = fs.files := by
  simp only [backupStep, backupPathFor, noFail]
  by_cases h : lsHasPre ASSETS_DIR orig.dir = true
  · simp [h, files_mkdirParents]
  · simp only [Bool.not_eq_true] at h
    simp [h]

theorem lookup_backupStep (bad : FailOracle) (fs : FS) (orig : FPath) (q : FPath) :
    (backupStep bad fs orig).1.lookup q = fs.lookup q := by
  simp only [backupStep]
  by_cases h : lsHasPre ASSETS_DIR orig.dir = true
  · simp only [h, if_true]
    by_cases hb : bad (FsOp.mk (BACKUP_DIR ++ orig.dir.drop ASSETS_DIR.length)) = true
    · rw [if_pos hb]
    · rw [if_neg hb]
      exact lookup_mkdirParents fs _ q
  · simp only [Bool.not_eq_true] at h
    simp [h]

theorem lookup_isSome_iff_mem_paths (fs : FS) (q : FPath) :
    (fs.lookup q).isSome = true ↔ q ∈ fs.paths := by
  simp only [FS.lookup, FS.paths]
  constructor
  · intro h
    cases hf : fs.files.find? (fun e => (e.1 = q : Bool)) with
    | none =>
      rw [hf] at h
      simp at h
    | some e =>
      have hmem := List.mem_of_find?_eq_some hf
      have hq := List.find?_some hf
      have he : e.1 = q := by simpa using hq
      exact he ▸ List.mem_map_of_mem Prod.fst hmem
  · intro h
    rcases List.mem_map.mp h with ⟨e, he, hq⟩
    cases hf : fs.files.find? (fun x => (x.1 = q : Bool)) with
    | none =>
      have := List.find?_eq_none.mp hf e he
      simp [hq] at this
    | some e2 => simp [hf]

theorem lookup_moveFile_isSome (fs : FS) (src dst q : FPath)
    (hq : ((fs.moveFile src dst).lookup q).isSome = true) :
    q = dst ∨ ((fs.lookup q).isSome = true ∧ q ≠ src) := by
  simp only [FS.moveFile] at hq
  cases hsrc : fs.lookup src with
  | none =>
    rw [hsrc] at hq
    right
    refine ⟨hq, ?_⟩
    intro he
    rw [he, hsrc] at hq
    simp at hq
  | some c =>
    rw [hsrc] at hq
    by_cases hd : q = dst
    · exact Or.inl hd
    · right
      rw [lookup_writeFile_ne _ _ _ _ hd] at hq
      by_cases hs : q = src
      · rw [hs, lookup_removeFile_self] at hq
        simp at hq
      · rw [lookup_removeFile_ne _ _ _ hs] at hq
        exact ⟨hq, hs⟩

theorem lcLt_asymm : ∀ a b : List Char, lcLt a b = true → lcLt b a = false := by
  intro a
  induction a with
  | nil =>
    intro b h
    cases b with
    | nil => simp [lcLt] at h
    | cons d ds => simp [lcLt]
  | cons c cs ih =>
    intro b h
    cases b with
    | nil => simp [lcLt] at h
    | cons d ds =>
      simp only [lcLt] at h ⊢
      by_cases hcd : c.toNat < d.toNat
      · have hdc : ¬ d.toNat < c.toNat := by omega
        simp [hdc, hcd]
      · by_cases hdc : d.toNat < c.toNat
        · simp [hcd, hdc] at h
        · have h' : lcLt cs ds = true := by simpa [hcd, hdc] using h
          simp [hcd, hdc, ih ds h']

theorem strLeB_total (a b : String) : strLeB a b = true ∨ strLeB b a = true := by
  simp only [strLeB, Bool.not_eq_true']
  by_cases h : strLtB b a = true
  · right
    exact lcLt_asymm b.data a.data h
  · left
    simpa using h

theorem strLeB_trans (a b c : String) :
    strLeB a b = true → strLeB b c = true → strLeB a c = true := by
  simp only [strLeB, Bool.not_eq_true']
  intro hba hcb
  by_cases hca : strLtB c a = true
  · by_cases hbc : strLtB b c = true
    · have := strLtB_trans b c a hbc hca
      rw [this] at hba
      simp at hba
    · have hbceq : b = c :=
        strLtB_asymm_eq b c (by simpa using hbc) hcb
      subst hbceq
      rw [hca] at hba
      simp at hba
  · simpa using hca

theorem pathLeB_total (p q : FPath) : pathLeB p q = true ∨ pathLeB q p = true := by
  simp only [pathLeB]
  exact listStrLeB_total _ _

theorem pathLeB_trans (p q r : FPath) :
    pathLeB p q = true → pathLeB q r = true → pathLeB p r = true := by
  simp only [pathLeB]
  exact listStrLeB_trans _ _ _

theorem lsHasPre_append (pre rest : List String) :
    lsHasPre pre (pre ++ rest) = true := by
  induction pre with
  | nil => rfl
  | cons a t ih => simp [lsHasPre, ih]

theorem clHasPre_append (pre rest : List Char) :
    clHasPre pre (pre ++ rest) = true := by
  induction pre with
  | nil => rfl
  | cons a t ih => simp [clHasPre, ih]

/-- Any backup destination lies under the backup root, hence outside the
discovery scope. -/
theorem inScanScope_backupPathFor (p : FPath) :
    inScanScope (backupPathFor p) = false := by
  simp only [backupPathFor, inScanScope]
  by_cases h : lsHasPre ASSETS_DIR p.dir = true
  · simp [h, lsHasPre_append]
  · simp only [Bool.not_eq_true] at h
    have : lsHasPre BACKUP_DIR BACKUP_DIR = true := by
      have := lsHasPre_append BACKUP_DIR []
      simpa using this
    simp [h, this]

theorem mem_find_optimized_iff (fs : FS) (p : FPath) :
    p ∈ find_optimized_files fs ↔
      p ∈ fs.paths ∧ inScanScope p = true ∧ matchedOptName p = true := by
  simp only [find_optimized_files, mem_sortLe, List.mem_append, List.mem_filter,
    matchedOptName, Bool.and_eq_true, Bool.or_eq_true]
  tauto

theorem mem_find_files_iff (fs : FS) (p : FPath) :
    p ∈ find_files_to_process fs ↔
      p ∈ fs.paths ∧ inScanScope p = true ∧ matchedExtName p = true := by
  simp only [find_files_to_process, mem_sortLe, List.mem_append, List.mem_filter,
    matchedExtName, Bool.and_eq_true, Bool.or_eq_true]
  tauto

theorem processFix_noFail_eq (fs : FS) (p : FPath) :
    process_file_fix noFail fs p =
      (if fs.hasFile (get_original_name p) then
        (if !((backupStep noFail fs (get_original_name p)).1.hasFile
              (backupPathFor (get_original_name p))) then
          (((backupStep noFail fs (get_original_name p)).1.moveFile
              (get_original_name p) (backupPathFor (get_original_name p))).moveFile
            p (get_original_name p), true)
        else
          (((backupStep noFail fs (get_original_name p)).1.removeFile
              (get_original_name p)).moveFile p (get_original_name p), true))
      else (fs.moveFile p (get_original_name p), true)) := by
  have h2 := (backupStep_noFail fs (get_original_name p)).1
  simp only [process_file_fix, processFileFixCore, FS.moveE, FS.removeE, noFail,
    Bool.false_eq_true, if_false, h2]
  by_cases h : fs.hasFile (get_original_name p) = true
  · simp only [h, if_true]
    by_cases hb : (backupStep noFail fs (get_original_name p)).1.hasFile
        (backupPathFor (get_original_name p)) = true
    · have hcond : ¬ ((!((backupStep noFail fs (get_original_name p)).1.hasFile
          (backupPathFor (get_original_name p)))) = true) := by simp [hb]
      rw [if_neg hcond, if_neg hcond]
      rfl
    · have hb' : (backupStep noFail fs (get_original_name p)).1.hasFile
          (backupPathFor (get_original_name p)) = false := by simpa using hb
      have hcond : (!((backupStep noFail fs (get_original_name p)).1.hasFile
          (backupPathFor (get_original_name p)))) = true := by simp [hb']
      rw [if_pos hcond, if_pos hcond]
      rfl
  · simp [h]

theorem processFix_noFail_ok (fs : FS) (p : FPath) :
    (process_file_fix noFail fs p).2 = true := by
  rw [processFix_noFail_eq]
  by_cases h : fs.hasFile (get_original_name p) = true
  · rw [if_pos h]
    by_cases hb : (!((backupStep noFail fs (get_original_name p)).1.hasFile
        (backupPathFor (get_original_name p)))) = true
    · rw [if_pos hb]
    · rw [if_neg hb]
  · rw [if_neg h]

/-- After `process_file_fix` (no filesystem errors), every surviving file
is the renamed destination, the backup copy, or an untouched file other
than the processed one. -/
theorem survive_processFix (fs : FS) (p q : FPath)
    (hq : (((process_file_fix noFail fs p).1).lookup q).isSome = true) :
    q = get_original_name p ∨ q = backupPathFor (get_original_name p) ∨
      ((fs.lookup q).isSome = true ∧ q ≠ p) := by
  rw [processFix_noFail_eq] at hq
  by_cases h : fs.hasFile (get_original_name p) = true
  · rw [if_pos h] at hq
    by_cases hb : (!((backupStep noFail fs (get_original_name p)).1.hasFile
        (backupPathFor (get_original_name p)))) = true
    · rw [if_pos hb] at hq
      rcases lookup_moveFile_isSome _ _ _ _ hq with hd | ⟨hsome, hne⟩
      · exact Or.inl hd
      · rcases lookup_moveFile_isSome _ _ _ _ hsome with hd2 | ⟨hsome2, hne2⟩
        · exact Or.inr (Or.inl hd2)
        · rw [lookup_backupStep] at hsome2
          exact Or.inr (Or.inr ⟨hsome2, hne⟩)
    · rw [if_neg hb] at hq
      rcases lookup_moveFile_isSome _ _ _ _ hq with hd | ⟨hsome, hne⟩
      · exact Or.inl hd
      · by_cases ho : q = get_original_name p
        · exact Or.inl ho
        · rw [lookup_removeFile_ne _ _ _ ho, lookup_backupStep] at hsome
          exact Or.inr (Or.inr ⟨hsome, hne⟩)
  · rw [if_neg h] at hq
    rcases lookup_moveFile_isSome _ _ _ _ hq with hd | ⟨hsome, hne⟩
    · exact Or.inl hd
    · exact Or.inr (Or.inr ⟨hsome, hne⟩)

theorem runFixBatch_noFail_failed (todo : List FPath) :
    ∀ (fs : FS) (n : Nat) (failed : List FPath),
      (runFixBatch noFail fs n failed todo).2.2 = failed := by
  induction todo with
  | nil => intro fs n failed; rfl
  | cons p rest ih =>
    intro fs n failed
    simp only [runFixBatch]
    have hok := processFix_noFail_ok fs p
    cases hpf : process_file_fix noFail fs p with
    | mk fs' b =>
      rw [hpf] at hok
      simp only at hok
      subst hok
      exact ih fs' (n + 1) failed

/-- Core induction for idempotence: if every file whose path the
rename-fix discovery would match is in the remaining worklist, and no
computed destination matches, then after the batch no file matches. -/
theorem runFixBatch_clears (todo : List FPath) :
    ∀ (fs : FS) (n : Nat) (failed : List FPath),
      (∀ q, (fs.lookup q).isSome = true → matchedNameB q = true → q ∈ todo) →
      (∀ p, p ∈ todo → matchedNameB (get_original_name p) = false) →
      ∀ q, ((runFixBatch noFail fs n failed todo).1.lookup q).isSome = true →
        matchedNameB q = false := by
  induction todo with
  | nil =>
    intro fs n failed hinv _ q hq
    simp only [runFixBatch] at hq
    by_cases hm : matchedNameB q = true
    · exact absurd (hinv q hq hm) (List.not_mem_nil q)
    · simpa using hm
  | cons p rest ih =>
    intro fs n failed hinv hdest q hq
    simp only [runFixBatch] at hq
    cases hpf : process_file_fix noFail fs p with
    | mk fs' b =>
      have hinv' : ∀ q2, (fs'.lookup q2).isSome = true → matchedNameB q2 = true →
          q2 ∈ rest := by
        intro q2 hq2 hm2
        have hfs' : fs' = (process_file_fix noFail fs p).1 := by rw [hpf]
        rcases survive_processFix fs p q2 (by rw [← hfs']; exact hq2) with h1 | h2 | ⟨h3, h4⟩
        · have := hdest p (List.mem_cons_self p rest)
          rw [h1, this] at hm2
          simp at hm2
        · rw [h2] at hm2
          simp only [matchedNameB, Bool.and_eq_true] at hm2
          rw [inScanScope_backupPathFor] at hm2
          simp at hm2
        · have := hinv q2 h3 hm2
          rcases List.mem_cons.mp this with he | hr
          · exact absurd he h4
          · exact hr
      have hdest' : ∀ p2, p2 ∈ rest → matchedNameB (get_original_name p2) = false :=
        fun p2 hp2 => hdest p2 (List.mem_cons_of_mem p hp2)
      rw [hpf] at hq
      cases b with
      | true => exact ih fs' (n + 1) failed hinv' hdest' q hq
      | false => exact ih fs' n (failed ++ [p]) hinv' hdest' q hq

theorem replaceAllAux_nil (pat rep : List Char) (fuel : Nat) :
    replaceAllAux pat rep fuel [] = [] := by
  cases fuel with
  | zero => rfl
  | succ f => rfl

theorem clHasPre_refl (l : List Char) : clHasPre l l = true := by
  have := clHasPre_append l []
  simpa using this

/-- `str.replace(pat, "")` removes exactly a trailing occurrence of `pat`
when no occurrence starts anywhere earlier in the string. -/
theorem replaceAll_only_end (pat : List Char) (hne : pat ≠ []) :
    ∀ w : List Char,
      (∀ i, i < w.length → clHasPre pat ((w ++ pat).drop i) = false) →
      replaceAll pat [] (w ++ pat) = w := by
  intro w
  induction w with
  | nil =>
    intro _
    simp only [replaceAll, List.nil_append]
    cases hp : pat with
    | nil => exact absurd hp hne
    | cons c rest =>
      simp only [List.length_cons, replaceAllAux]
      rw [if_pos ⟨List.cons_ne_nil c rest, clHasPre_refl (c :: rest)⟩]
      have hdrop : List.drop (rest.length + 1) (c :: rest) = [] := by
        apply List.drop_eq_nil_of_le
        simp
      simp only [List.length_cons] at hdrop ⊢
      rw [hdrop]
      simp [replaceAllAux_nil]
  | cons c w' ih =>
    intro hno
    have h0 : clHasPre pat (c :: (w' ++ pat)) = false := by
      have := hno 0 (by simp)
      simpa using this
    simp only [replaceAll, List.cons_append, List.length_cons, replaceAllAux]
    rw [if_neg (by simp [h0])]
    show c :: replaceAll pat [] (w' ++ pat) = c :: w'
    rw [ih]
    intro i hi
    have := hno (i + 1) (by simp only [List.length_cons]; omega)
    simpa using this

theorem splitExt_append (cs : List Char) :
    (splitExt cs).1 ++ (splitExt cs).2 = cs := by
  simp only [splitExt]
  cases h : cs.reverse.findIdx? (fun c => c = '.') with
  | none => simp
  | some rj =>
    simp only []
    split
    · exact List.take_append_drop _ cs
    · simp

theorem tempPathFor_ne (p : FPath) : tempPathFor p ≠ p := by
  intro he
  have hn : (tempPathFor p).name.data = p.name.data :=
    congrArg (fun s => s.data) (congrArg FPath.name he)
  have hd : (splitExt p.name.data).1 ++ tempMarker ++ (splitExt p.name.data).2 =
      p.name.data := by
    have h3 : (tempPathFor p).name.data =
        (splitExt p.name.data).1 ++ tempMarker ++ (splitExt p.name.data).2 := rfl
    rw [← h3, hn]
  have hlen := congrArg List.length hd
  have hsp := congrArg List.length (splitExt_append p.name.data)
  simp only [List.length_append, tempMarker, List.length_cons, List.length_nil] at hlen hsp
  omega

theorem backupPathFor_under_backup (p : FPath) :
    lsHasPre BACKUP_DIR (backupPathFor p).dir = true := by
  simp only [backupPathFor]
  by_cases h : lsHasPre ASSETS_DIR p.dir = true
  · simp [h, lsHasPre_append]
  · simp only [Bool.not_eq_true] at h
    simp only [h, Bool.false_eq_true, if_false]
    have := lsHasPre_append BACKUP_DIR []
    simpa using this

theorem scope_ne_backupPath (p x : FPath) (h : inScanScope p = true) :
    p ≠ backupPathFor x := by
  intro he
  have hb := backupPathFor_under_backup x
  rw [← he] at hb
  simp only [inScanScope, Bool.and_eq_true, Bool.not_eq_true'] at h
  rw [h.2] at hb
  simp at hb

/-- Claim C3: discovery returns exactly the files under the assets root
matching the target pattern (`*-optimized{.glb,.gltf}` for rename-fix,
`*{.glb,.gltf}` for optimize), excludes everything under the backup
subtree, and is sorted lexicographically by path.  Both discovery
functions are pure (`FS → List FPath`), so they have no filesystem side
effects by construction. -/
theorem C3_discovery_exact_sorted :
    (∀ (fs : FS) (p : FPath),
       p ∈ find_optimized_files fs ↔
         p ∈ fs.paths ∧ inScanScope p = true ∧ matchedOptName p = true) ∧
    (∀ fs : FS, (find_optimized_files fs).Pairwise (fun x y => pathLeB x y = true)) ∧
    (∀ (fs : FS) (p : FPath),
       p ∈ find_files_to_process fs ↔
         p ∈ fs.paths ∧ inScanScope p = true ∧ matchedExtName p = true) ∧
    (∀ fs : FS, (find_files_to_process fs).Pairwise (fun x y => pathLeB x y = true)) := by
  refine ⟨mem_find_optimized_iff, ?_, mem_find_files_iff, ?_⟩
  · intro fs
    exact pairwise_sortLe pathLeB pathLeB_total pathLeB_trans _
  · intro fs
    exact pairwise_sortLe pathLeB pathLeB_total pathLeB_trans _

/-- Claim C5: in the rename-fix workflow, a non-affirmative answer or an
unreadable input stream cancels the run with the filesystem unchanged
(structural equality of states) and exit code 0. -/
theorem C5_decline_cancels_cleanly :
    ∀ (bad : FailOracle) (fs : FS) (ans : Option String),
      ASSETS_DIR ∈ fs.dirs →
      (ans = none ∨ ∃ a, ans = some a ∧ isYes a = false) →
      mainFix bad fs ans = ⟨fs, 0, 0, []⟩ := by
  intro bad fs ans hdir hans
  simp only [mainFix, if_pos hdir]
  by_cases hf : find_optimized_files fs = []
  · simp [hf]
  · simp only [hf, if_neg, if_false]
    rcases hans with h | ⟨a, ha, hno⟩
    · subst h
      simp
    · subst ha
      simp [hno]

/-- Claim C9: the listing scripts emit a JSON array of names in sorted
order; with `indent=2` formatting; `ensure_ascii=False` leaves every
non-ASCII character literal (unescaped); the file handle uses UTF-8. -/
theorem C9_listing_json_output :
    (∀ d : List DirEntry, (listar_arquivos d).Pairwise (fun x y => strLeB x y = true)) ∧
    (∀ d : List DirEntry, (listar_glb d).Pairwise (fun x y => strLeB x y = true)) ∧
    (∀ c : Char, 128 ≤ c.toNat → jsonEscapeChar c = [c]) ∧
    (∀ d : List DirEntry, arquivosJsonOutput d = jsonDumpIndent2 (listar_arquivos d)) ∧
    (∀ d : List DirEntry, modelosJsonOutput d = jsonDumpIndent2 (listar_glb d)) := by
  refine ⟨?_, ?_, ?_, fun d => rfl, fun d => rfl⟩
  · intro d
    exact pairwise_sortLe strLeB strLeB_total strLeB_trans _
  · intro d
    exact pairwise_sortLe strLeB strLeB_total strLeB_trans _
  · intro c h128
    have h1 : ¬ (c = '\x22') := by
      intro he; rw [he] at h128; exact absurd h128 (by decide)
    have h2 : ¬ (c = '\\') := by
      intro he; rw [he] at h128; exact absurd h128 (by decide)
    have h3 : ¬ (c = '\n') := by
      intro he; rw [he] at h128; exact absurd h128 (by decide)
    have h4 : ¬ (c = '\t') := by
      intro he; rw [he] at h128; exact absurd h128 (by decide)
    have h5 : ¬ (c = '\x0d') := by
      intro he; rw [he] at h128; exact absurd h128 (by decide)
    have h6 : ¬ (c = '\x08') := by
      intro he; rw [he] at h128; exact absurd h128 (by decide)
    have h7 : ¬ (c = '\x0c') := by
      intro he; rw [he] at h128; exact absurd h128 (by decide)
    have h8 : ¬ (c.toNat < 32) := by omega
    simp only [jsonEscapeChar, if_neg h1, if_neg h2, if_neg h3, if_neg h4,
      if_neg h5, if_neg h6, if_neg h7, if_neg h8]

theorem C5_decline_cancels_cleanly_witness :
    mainFix noFail fsW5 (some ("n")) = ⟨fsW5, 0, 0, []⟩ :=
  C5_decline_cancels_cleanly noFail fsW5 (some ("n")) (by decide)
    (Or.inr ⟨"n", rfl, by decide⟩)

theorem C9_listing_json_output_witness : jsonEscapeChar 'é' = ['é'] :=
  C9_listing_json_output.2.2.1 'é' (by decide)

/-- Claim C10: `listar_glb` keeps exactly the immediate entries whose
name ends with `.glb` case-insensitively, including subdirectories (no
regular-file check), while `listar_arquivos` keeps exactly the regular
files; neither recurses (`os.listdir` yields immediate entries only, by
construction of `DirEntry`). -/
theorem C10_glb_listing_semantics :
    (∀ (d : List DirEntry) (n : String),
       n ∈ listar_glb d ↔ (∃ e, e ∈ d ∧ e.name = n) ∧ lowerEndsGlb n = true) ∧
    (∀ (d : List DirEntry) (n : String),
       n ∈ listar_arquivos d ↔ ∃ e, e ∈ d ∧ e.name = n ∧ e.isFileFlag = true) ∧
    ("MODEL.GLB" ∈ listar_glb dC10) ∧ ("kart.Glb" ∈ listar_glb dC10) ∧
    ("track.glb" ∈ listar_glb dC10) ∧ ¬ ("track.glb" ∈ listar_arquivos dC10) ∧
    ¬ ("readme.txt" ∈ listar_glb dC10) := by
  refine ⟨?_, ?_, by decide, by decide, by decide, by decide, by decide⟩
  · intro d n
    simp only [listar_glb, mem_sortLe, List.mem_filter, List.mem_map]
  · intro d n
    simp only [listar_arquivos, mem_sortLe, List.mem_map, List.mem_filter]
    constructor
    · rintro ⟨e, ⟨he, hf⟩, hn⟩
      exact ⟨e, he, hn, hf⟩
    · rintro ⟨e, he, hn, hf⟩
      exact ⟨e, ⟨he, hf⟩, hn⟩

theorem optimize_file_fst (orc : OptOracle) (fs : FS) (inp outp : FPath) :
    (optimize_file orc fs inp outp).1 =
      match orc.written inp with
      | some c => fs.writeFile outp c
      | none => fs := by
  cases h : orc.written inp with
  | none =>
    simp only [optimize_file, h]
    split <;> rfl
  | some c =>
    simp only [optimize_file, h]
    split <;> rfl

theorem optimize_file_lookup_ne (orc : OptOracle) (fs : FS) (inp outp q : FPath)
    (h : q ≠ outp) :
    (optimize_file orc fs inp outp).1.lookup q = fs.lookup q := by
  rw [optimize_file_fst]
  cases orc.written inp with
  | none => rfl
  | some c => exact lookup_writeFile_ne fs outp q c h

theorem processOpt_noFail_fail_eq (orc : OptOracle) (fs : FS) (p : FPath)
    (hfail : (optimize_file orc fs p (tempPathFor p)).2 = false) :
    process_file_opt noFail orc fs p =
      Except.ok
        ((if (optimize_file orc fs p (tempPathFor p)).1.hasFile (tempPathFor p) then
            (optimize_file orc fs p (tempPathFor p)).1.removeFile (tempPathFor p)
          else (optimize_file orc fs p (tempPathFor p)).1), false) := by
  simp only [process_file_opt, hfail, Bool.not_false, if_true, FS.removeE, noFail,
    Bool.false_eq_true, if_false]
  by_cases ht : (optimize_file orc fs p (tempPathFor p)).1.hasFile (tempPathFor p) = true
  · rw [if_pos ht, if_pos ht]
    rfl
  · rw [if_neg ht, if_neg ht]
    rfl

/-- Claim C2: if the external optimizer invocation fails, times out, or
leaves no file at the output path (all the ways `optimize_file` reports
failure), the file's processing returns failure, deletes any partial
temporary output, and leaves every other path — in particular the
original file — untouched. -/
theorem C2_optimizer_failure_leaves_original :
    ∀ (orc : OptOracle) (fs : FS) (p : FPath),
      (optimize_file orc fs p (tempPathFor p)).2 = false →
      ∃ fsr, process_file_opt noFail orc fs p = Except.ok (fsr, false) ∧
        fsr.lookup (tempPathFor p) = none ∧
        fsr.lookup p = fs.lookup p ∧
        (∀ q, q ≠ tempPathFor p → fsr.lookup q = fs.lookup q) := by
  intro orc fs p hfail
  rw [processOpt_noFail_fail_eq orc fs p hfail]
  by_cases ht : (optimize_file orc fs p (tempPathFor p)).1.hasFile (tempPathFor p) = true
  · rw [if_pos ht]
    refine ⟨_, rfl, lookup_removeFile_self _ _, ?_, ?_⟩
    · rw [lookup_removeFile_ne _ _ _ (Ne.symm (tempPathFor_ne p))]
      exact optimize_file_lookup_ne orc fs p (tempPathFor p) p (Ne.symm (tempPathFor_ne p))
    · intro q hq
      rw [lookup_removeFile_ne _ _ _ hq]
      exact optimize_file_lookup_ne orc fs p (tempPathFor p) q hq
  · rw [if_neg ht]
    refine ⟨_, rfl, ?_, ?_, ?_⟩
    · cases hl : (optimize_file orc fs p (tempPathFor p)).1.lookup (tempPathFor p) with
      | none => rfl
      | some c =>
        exfalso
        apply ht
        simp [FS.hasFile, hl]
    · exact optimize_file_lookup_ne orc fs p (tempPathFor p) p (Ne.symm (tempPathFor_ne p))
    · intro q hq
      exact optimize_file_lookup_ne orc fs p (tempPathFor p) q hq

theorem lookup_moveFile_ne (fs : FS) (src dst q : FPath) (hd : q ≠ dst) (hs : q ≠ src) :
    (fs.moveFile src dst).lookup q = fs.lookup q := by
  simp only [FS.moveFile]
  cases h : fs.lookup src with
  | none => rfl
  | some c => rw [lookup_writeFile_ne _ _ _ _ hd, lookup_removeFile_ne _ _ _ hs]

theorem lookup_moveFile_dst (fs : FS) (src dst : FPath) (c : Content)
    (h : fs.lookup src = some c) :
    (fs.moveFile src dst).lookup dst = some c := by
  simp only [FS.moveFile, h]
  exact lookup_writeFile_self _ _ _

theorem lookup_moveFile_src_none (fs : FS) (src dst : FPath) (hne : src ≠ dst)
    (c : Content) (h : fs.lookup src = some c) :
    (fs.moveFile src dst).lookup src = none := by
  simp only [FS.moveFile, h]
  rw [lookup_writeFile_ne _ _ _ _ hne, lookup_removeFile_self]

theorem moveFile_of_lookup_none (fs : FS) (src dst : FPath) (h : fs.lookup src = none) :
    fs.moveFile src dst = fs := by
  simp [FS.moveFile, h]

theorem inScanScope_get_original (p : FPath) :
    inScanScope (get_original_name p) = inScanScope p := rfl

theorem inScanScope_tempPathFor (p : FPath) :
    inScanScope (tempPathFor p) = inScanScope p := rfl

theorem hasFile_backupStep (bad : FailOracle) (fs : FS) (orig q : FPath) :
    (backupStep bad fs orig).1.hasFile q = fs.hasFile q := by
  simp only [FS.hasFile, lookup_backupStep]

theorem processOpt_noFail_ok_eq (orc : OptOracle) (fs : FS) (p : FPath)
    (hok : (optimize_file orc fs p (tempPathFor p)).2 = true) :
    process_file_opt noFail orc fs p =
      Except.ok
        (((if !((backupStep noFail (optimize_file orc fs p (tempPathFor p)).1 p).1.hasFile
              (backupPathFor p)) then
            (backupStep noFail (optimize_file orc fs p (tempPathFor p)).1 p).1.moveFile p
              (backupPathFor p)
          else
            (backupStep noFail (optimize_file orc fs p (tempPathFor p)).1 p).1.removeFile
              p).moveFile (tempPathFor p) p), true) := by
  have h2 := (backupStep_noFail (optimize_file orc fs p (tempPathFor p)).1 p).1
  simp only [process_file_opt, hok, Bool.not_true, Bool.false_eq_true, if_false,
    FS.moveE, FS.removeE, noFail, h2]
  by_cases hb : (backupStep noFail (optimize_file orc fs p (tempPathFor p)).1 p).1.hasFile
      (backupPathFor p) = true
  · have hcond : ¬ ((!((backupStep noFail (optimize_file orc fs p (tempPathFor p)).1 p).1.hasFile
        (backupPathFor p))) = true) := by simp [hb]
    rw [if_neg hcond, if_neg hcond]
    rfl
  · have hb' : (backupStep noFail (optimize_file orc fs p (tempPathFor p)).1 p).1.hasFile
        (backupPathFor p) = false := by simpa using hb
    have hcond : (!((backupStep noFail (optimize_file orc fs p (tempPathFor p)).1 p).1.hasFile
        (backupPathFor p))) = true := by simp [hb']
    rw [if_pos hcond, if_pos hcond]
    rfl

theorem mem_dirs_addDir_self (fs : FS) (d : List String) : d ∈ (fs.addDir d).dirs := by
  simp only [FS.addDir]
  by_cases h : d ∈ fs.dirs
  · rw [if_pos h]
    exact h
  · rw [if_neg h]
    exact List.mem_cons_self d fs.dirs

theorem mem_dirs_addDir_mono (fs : FS) (d x : List String) (h : x ∈ fs.dirs) :
    x ∈ (fs.addDir d).dirs := by
  simp only [FS.addDir]
  by_cases hd : d ∈ fs.dirs
  · rw [if_pos hd]
    exact h
  · rw [if_neg hd]
    exact List.mem_cons_of_mem d h

theorem mem_dirs_foldl_addDir_mono (l : List (List String)) :
    ∀ (fs : FS) (x : List String), x ∈ fs.dirs → x ∈ (l.foldl FS.addDir fs).dirs := by
  induction l with
  | nil => intro fs x h; exact h
  | cons d t ih =>
    intro fs x h
    simp only [List.foldl_cons]
    exact ih (fs.addDir d) x (mem_dirs_addDir_mono fs d x h)

theorem mem_dirs_foldl_addDir (l : List (List String)) :
    ∀ (fs : FS) (x : List String), x ∈ l → x ∈ (l.foldl FS.addDir fs).dirs := by
  induction l with
  | nil => intro fs x h; exact absurd h (List.not_mem_nil x)
  | cons d t ih =>
    intro fs x h
    simp only [List.foldl_cons]
    rcases List.mem_cons.mp h with rfl | ht
    · exact mem_dirs_foldl_addDir_mono t (fs.addDir x) x (mem_dirs_addDir_self fs x)
    · exact ih (fs.addDir d) x ht

theorem mem_dirs_mkdirParents (fs : FS) (d : List String) :
    d ∈ (fs.mkdirParents d).dirs := by
  apply mem_dirs_foldl_addDir
  simp only [ancestorsOf, List.mem_map]
  exact ⟨d.length, by simp, List.take_length d⟩

theorem dirs_removeFile (fs : FS) (p : FPath) : (fs.removeFile p).dirs = fs.dirs := rfl

theorem dirs_writeFile (fs : FS) (p : FPath) (c : Content) :
    (fs.writeFile p c).dirs = fs.dirs := rfl

theorem dirs_moveFile (fs : FS) (src dst : FPath) :
    (fs.moveFile src dst).dirs = fs.dirs := by
  simp only [FS.moveFile]
  cases h : fs.lookup src with
  | none => rfl
  | some c => rfl

theorem mem_dirs_backupStep_noFail (fs : FS) (orig : FPath)
    (h : lsHasPre ASSETS_DIR orig.dir = true) :
    (BACKUP_DIR ++ orig.dir.drop ASSETS_DIR.length) ∈ (backupStep noFail fs orig).1.dirs := by
  simp only [backupStep, h, if_true, noFail, Bool.false_eq_true, if_false]
  exact mem_dirs_mkdirParents fs _

/-- Claim C1: when a file already occupies the destination path, it is
moved to the mirrored backup path if no backup exists there (the
mirrored directories are created by `backupStep`), and deleted outright
— with the existing backup left unchanged — when a backup already
exists; in both branches the destination ends up holding the processed
file, so a given path is backed up at most once per run.  Stated for the
rename-fix `process_file` and for the optimize `process_file` (where the
destination is the input path itself). -/
theorem C1_backup_at_most_once :
    (∀ (fs : FS) (p : FPath) (c : Content),
      inScanScope p = true →
      get_original_name p ≠ p →
      fs.lookup (get_original_name p) = some c →
      ((fs.hasFile (backupPathFor (get_original_name p)) = false →
          (process_file_fix noFail fs p).1.lookup (backupPathFor (get_original_name p)) =
            some c) ∧
       (∀ b, fs.lookup (backupPathFor (get_original_name p)) = some b →
          (process_file_fix noFail fs p).1.lookup (backupPathFor (get_original_name p)) =
            some b) ∧
       (process_file_fix noFail fs p).1.lookup (get_original_name p) = fs.lookup p ∧
       (BACKUP_DIR ++ (get_original_name p).dir.drop ASSETS_DIR.length) ∈
         (process_file_fix noFail fs p).1.dirs)) ∧
    (∀ (orc : OptOracle) (fs : FS) (p : FPath) (c cw : Content),
      inScanScope p = true →
      orc.rcOk p = true →
      orc.written p = some cw →
      fs.lookup p = some c →
      ∃ fsr, process_file_opt noFail orc fs p = Except.ok (fsr, true) ∧
        (fs.hasFile (backupPathFor p) = false → fsr.lookup (backupPathFor p) = some c) ∧
        (∀ b, fs.lookup (backupPathFor p) = some b →
          fsr.lookup (backupPathFor p) = some b) ∧
        fsr.lookup p = some cw ∧
        (BACKUP_DIR ++ p.dir.drop ASSETS_DIR.length) ∈ fsr.dirs) := by
  constructor
  · intro fs p c hscope hne hc
    have hscope2 : inScanScope (get_original_name p) = true := by
      rw [inScanScope_get_original]; exact hscope
    have hbp_orig : get_original_name p ≠ backupPathFor (get_original_name p) :=
      scope_ne_backupPath _ _ hscope2
    have hbp_p : p ≠ backupPathFor (get_original_name p) :=
      scope_ne_backupPath _ _ hscope
    have hhas : fs.hasFile (get_original_name p) = true := by
      simp [FS.hasFile, hc]
    rw [processFix_noFail_eq, if_pos hhas]
    have hbfiles := (backupStep_noFail fs (get_original_name p)).2
    have hbhas : (backupStep noFail fs (get_original_name p)).1.hasFile
        (backupPathFor (get_original_name p)) =
        fs.hasFile (backupPathFor (get_original_name p)) :=
      hasFile_backupStep _ _ _ _
    have hassets : lsHasPre ASSETS_DIR (get_original_name p).dir = true := by
      have h2 := hscope
      simp only [inScanScope, Bool.and_eq_true] at h2
      exact h2.1
    refine ⟨?_, ?_, ?_, ?_⟩
    · intro habs
      rw [if_pos (by rw [hbhas, habs]; rfl)]
      rw [lookup_moveFile_ne _ _ _ _ (Ne.symm hbp_orig) (Ne.symm hbp_p)]
      apply lookup_moveFile_dst
      rw [lookup_backupStep]
      exact hc
    · intro b hb
      have hbt : fs.hasFile (backupPathFor (get_original_name p)) = true := by
        simp [FS.hasFile, hb]
      rw [if_neg (by rw [hbhas, hbt]; simp)]
      rw [lookup_moveFile_ne _ _ _ _ (Ne.symm hbp_orig) (Ne.symm hbp_p)]
      rw [lookup_removeFile_ne _ _ _ (Ne.symm hbp_orig), lookup_backupStep]
      exact hb
    · by_cases habs : fs.hasFile (backupPathFor (get_original_name p)) = true
      · rw [if_neg (by rw [hbhas, habs]; simp)]
        cases hp : fs.lookup p with
        | none =>
          rw [moveFile_of_lookup_none]
          · rw [lookup_removeFile_self]
          · rw [lookup_removeFile_ne _ _ _ (fun he => hne he.symm), lookup_backupStep]
            exact hp
        | some cp =>
          apply lookup_moveFile_dst
          rw [lookup_removeFile_ne _ _ _ (fun he => hne he.symm), lookup_backupStep]
          exact hp
      · have habs' : fs.hasFile (backupPathFor (get_original_name p)) = false := by
          simpa using habs
        rw [if_pos (by rw [hbhas, habs']; rfl)]
        cases hp : fs.lookup p with
        | none =>
          rw [moveFile_of_lookup_none]
          · rw [lookup_moveFile_src_none _ _ _ hbp_orig c (by rw [lookup_backupStep]; exact hc)]
          · rw [lookup_moveFile_ne _ _ _ _ hbp_p (fun he => hne he.symm), lookup_backupStep]
            exact hp
        | some cp =>
          apply lookup_moveFile_dst
          rw [lookup_moveFile_ne _ _ _ _ hbp_p (fun he => hne he.symm), lookup_backupStep]
          exact hp
    · by_cases hb2 : (!((backupStep noFail fs (get_original_name p)).1.hasFile
          (backupPathFor (get_original_name p)))) = true
      · rw [if_pos hb2, dirs_moveFile, dirs_moveFile]
        exact mem_dirs_backupStep_noFail fs _ hassets
      · rw [if_neg hb2, dirs_moveFile, dirs_removeFile]
        exact mem_dirs_backupStep_noFail fs _ hassets
  · intro orc fs p c cw hscope hrc hw hc
    have htemp_ne : tempPathFor p ≠ p := tempPathFor_ne p
    have hscope3 : inScanScope (tempPathFor p) = true := by
      rw [inScanScope_tempPathFor]; exact hscope
    have hbp_p : p ≠ backupPathFor p := scope_ne_backupPath _ _ hscope
    have hbp_temp : tempPathFor p ≠ backupPathFor p := scope_ne_backupPath _ _ hscope3
    have hfs1 : (optimize_file orc fs p (tempPathFor p)).1 =
        fs.writeFile (tempPathFor p) cw := by
      rw [optimize_file_fst, hw]
    have hok : (optimize_file orc fs p (tempPathFor p)).2 = true := by
      simp only [optimize_file, hw, hrc, Bool.true_and]
      rw [if_pos]
      simp [FS.hasFile, lookup_writeFile_self]
    have hassets2 : lsHasPre ASSETS_DIR p.dir = true := by
      have h2 := hscope
      simp only [inScanScope, Bool.and_eq_true] at h2
      exact h2.1
    rw [processOpt_noFail_ok_eq orc fs p hok]
    refine ⟨_, rfl, ?_, ?_, ?_, ?_⟩
    · intro habs
      have hbhas : (backupStep noFail (optimize_file orc fs p (tempPathFor p)).1 p).1.hasFile
          (backupPathFor p) = false := by
        rw [hasFile_backupStep, hfs1]
        simp only [FS.hasFile]
        rw [lookup_writeFile_ne _ _ _ _ (Ne.symm hbp_temp)]
        exact habs
      rw [if_pos (by rw [hbhas]; rfl)]
      rw [lookup_moveFile_ne _ _ _ _ (Ne.symm hbp_p) (Ne.symm hbp_temp)]
      apply lookup_moveFile_dst
      rw [lookup_backupStep, hfs1, lookup_writeFile_ne _ _ _ _ (Ne.symm htemp_ne)]
      exact hc
    · intro b hb
      have hbhas : (backupStep noFail (optimize_file orc fs p (tempPathFor p)).1 p).1.hasFile
          (backupPathFor p) = true := by
        rw [hasFile_backupStep, hfs1]
        simp only [FS.hasFile]
        rw [lookup_writeFile_ne _ _ _ _ (Ne.symm hbp_temp)]
        simp [hb]
      rw [if_neg (by rw [hbhas]; simp)]
      rw [lookup_moveFile_ne _ _ _ _ (Ne.symm hbp_p) (Ne.symm hbp_temp)]
      rw [lookup_removeFile_ne _ _ _ (Ne.symm hbp_p), lookup_backupStep, hfs1,
        lookup_writeFile_ne _ _ _ _ (Ne.symm hbp_temp)]
      exact hb
    · by_cases habs : (backupStep noFail (optimize_file orc fs p (tempPathFor p)).1 p).1.hasFile
          (backupPathFor p) = true
      · rw [if_neg (by rw [habs]; simp)]
        apply lookup_moveFile_dst
        rw [lookup_removeFile_ne _ _ _ htemp_ne, lookup_backupStep, hfs1]
        exact lookup_writeFile_self _ _ _
      · have habs' : (backupStep noFail (optimize_file orc fs p (tempPathFor p)).1 p).1.hasFile
            (backupPathFor p) = false := by simpa using habs
        rw [if_pos (by rw [habs']; rfl)]
        apply lookup_moveFile_dst
        rw [lookup_moveFile_ne _ _ _ _ hbp_temp htemp_ne, lookup_backupStep, hfs1]
        exact lookup_writeFile_self _ _ _
    · by_cases hb2 : (!((backupStep noFail (optimize_file orc fs p (tempPathFor p)).1 p).1.hasFile
          (backupPathFor p))) = true
      · rw [if_pos hb2, dirs_moveFile, dirs_moveFile]
        exact mem_dirs_backupStep_noFail _ _ hassets2
      · rw [if_neg hb2, dirs_moveFile, dirs_removeFile]
        exact mem_dirs_backupStep_noFail _ _ hassets2

theorem C1_backup_at_most_once_witness :
    (process_file_fix noFail fsW5 pW1).1.lookup
        (backupPathFor (get_original_name pW1)) = some 50 ∧
      (∃ fsr, process_file_opt noFail orcW1 fsW1o pW1o = Except.ok (fsr, true) ∧
        fsr.lookup (backupPathFor pW1o) = some 7 ∧ fsr.lookup pW1o = some 3) := by
  refine ⟨(C1_backup_at_most_once.1 fsW5 pW1 50 (by decide) (by decide)
    (by decide)).1 (by decide), ?_⟩
  obtain ⟨fsr, heq, h1, h2, h3, h4⟩ :=
    C1_backup_at_most_once.2 orcW1 fsW1o pW1o 7 3 (by decide) rfl rfl (by decide)
  exact ⟨fsr, heq, h1 (by decide), h3⟩

theorem C2_optimizer_failure_leaves_original_witness :
    ∃ fsr, process_file_opt noFail orcW2 fsW2 pW1o = Except.ok (fsr, false) ∧
      fsr.lookup (tempPathFor pW1o) = none ∧
      fsr.lookup pW1o = fsW2.lookup pW1o ∧
      (∀ q, q ≠ tempPathFor pW1o → fsr.lookup q = fsW2.lookup q) :=
  C2_optimizer_failure_leaves_original orcW2 fsW2 pW1o (by decide)

/-- Claim C4 counterexample: `a-optimized-b-optimized.glb` is a
discoverable file, yet the code computes `a-b.glb` (it removes every
occurrence of the marker from the stem), not the claim's
`a-optimized-b.glb` (trailing marker only, rest of the stem
unchanged). -/
theorem C4_counterexample_mid_stem_marker :
    get_original_name pC4 ≠ specStripSuffixDest pC4 ∧
      inScanScope pC4 = true ∧
      clHasSuf (optMarker ++ glbExt) pC4.name.data = true ∧
      get_original_name pC4 = ⟨ASSETS_DIR, "a-b.glb"⟩ ∧
      specStripSuffixDest pC4 = ⟨ASSETS_DIR, "a-optimized-b.glb"⟩ := by decide

/-- Claim C4 as amended: the destination stays in the same parent
directory and keeps the same suffix, and the stem is transformed by
removing every occurrence of `-optimized`; when the trailing occurrence
is the only position where the marker occurs in the stem, this is
exactly the claim's suffix stripping — the rest of the stem is
unchanged. -/
theorem C4_amended_dest_name :
    ∀ (p : FPath) (w : List Char),
      (splitExt p.name.data).1 = w ++ optMarker →
      (∀ i, i < w.length → clHasPre optMarker ((w ++ optMarker).drop i) = false) →
      get_original_name p = ⟨p.dir, String.mk (w ++ (splitExt p.name.data).2)⟩ := by
  intro p w hst hno
  simp only [get_original_name, hst]
  rw [replaceAll_only_end optMarker (by decide) w hno]

theorem C4_amended_dest_name_witness :
    get_original_name ⟨ASSETS_DIR, "car-optimized.glb"⟩ =
      ⟨ASSETS_DIR, String.mk (['c', 'a', 'r'] ++
        (splitExt ("car-optimized.glb").data).2)⟩ :=
  C4_amended_dest_name ⟨ASSETS_DIR, "car-optimized.glb"⟩ (['c', 'a', 'r'])
    (by decide) (by decide)

theorem runFixBatch_accounting (todo : List FPath) :
    ∀ (bad : FailOracle) (fs : FS) (n : Nat) (failed : List FPath),
      (runFixBatch bad fs n failed todo).2.1 +
          (runFixBatch bad fs n failed todo).2.2.length =
        n + failed.length + todo.length ∧
      ∀ q, q ∈ (runFixBatch bad fs n failed todo).2.2 → q ∈ failed ∨ q ∈ todo := by
  induction todo with
  | nil =>
    intro bad fs n failed
    refine ⟨by simp [runFixBatch], ?_⟩
    intro q hq
    exact Or.inl hq
  | cons p rest ih =>
    intro bad fs n failed
    simp only [runFixBatch]
    cases hpf : process_file_fix bad fs p with
    | mk fs' b =>
      cases b with
      | true =>
        rcases ih bad fs' (n + 1) failed with ⟨hcount, hmem⟩
        refine ⟨by rw [hcount]; simp; omega, ?_⟩
        intro q hq
        rcases hmem q hq with h | h
        · exact Or.inl h
        · exact Or.inr (List.mem_cons_of_mem p h)
      | false =>
        rcases ih bad fs' n (failed ++ [p]) with ⟨hcount, hmem⟩
        refine ⟨by rw [hcount]; simp [List.length_append]; omega, ?_⟩
        intro q hq
        rcases hmem q hq with h | h
        · rcases List.mem_append.mp h with h2 | h2
          · exact Or.inl h2
          · simp only [List.mem_singleton] at h2
            exact Or.inr (h2 ▸ List.mem_cons_self p rest)
        · exact Or.inr (List.mem_cons_of_mem p h)

/-- Claim C6 as amended: in the rename-fix workflow every per-file
failure is caught, counted, and the batch always runs to completion
(success count plus failure count equals the batch size, and every
failed path comes from the batch); in the optimization workflow a
filesystem error inside `process_file` propagates and aborts the whole
loop at that file. -/
theorem C6_amended_per_file_errors :
    (∀ (bad : FailOracle) (fs : FS) (todo : List FPath),
       (runFixBatch bad fs 0 [] todo).2.1 +
           (runFixBatch bad fs 0 [] todo).2.2.length = todo.length ∧
       ∀ q, q ∈ (runFixBatch bad fs 0 [] todo).2.2 → q ∈ todo) ∧
    (∀ (bad : FailOracle) (orc : OptOracle) (fs : FS) (n : Nat)
       (failed : List FPath) (p : FPath) (rest : List FPath) (e : FS),
       process_file_opt bad orc fs p = Except.error e →
       runOptBatch bad orc fs n failed (p :: rest) = Except.error (e, n, failed)) := by
  constructor
  · intro bad fs todo
    rcases runFixBatch_accounting todo bad fs 0 [] with ⟨hcount, hmem⟩
    refine ⟨by simpa using hcount, ?_⟩
    intro q hq
    rcases hmem q hq with h | h
    · exact absurd h (List.not_mem_nil q)
    · exact h
  · intro bad orc fs n failed p rest e he
    simp only [runOptBatch, he]

/-- Claim C6 counterexample (continued): the run aborts via an uncaught
exception. -/
theorem C6_counterexample_opt_move_aborts :
    mainOpt badC6 orcC6 fsC6 = Except.error (fsE6, 0, []) := rfl

theorem C6_amended_per_file_errors_witness :
    ((runFixBatch noFail fsC6 0 [] [paC6, pbC6]).2.1 +
        (runFixBatch noFail fsC6 0 [] [paC6, pbC6]).2.2.length = 2 ∧
      ∀ q, q ∈ (runFixBatch noFail fsC6 0 [] [paC6, pbC6]).2.2 → q ∈ [paC6, pbC6]) ∧
    runOptBatch badC6 orcC6 fsC6 0 [] [paC6, pbC6] =
      Except.error (fsE6b, 0, []) := by
  constructor
  · exact C6_amended_per_file_errors.1 noFail fsC6 [paC6, pbC6]
  · exact C6_amended_per_file_errors.2 badC6 orcC6 fsC6 0 [] paC6 [pbC6] fsE6b
      (by rfl)

/-- Claim C7 counterexample: `optimize-assets.py` never prompts — its
`main` takes no operator answer at all (faithful to the script, which
contains no `input()` call) — yet even on a state with nothing to
process it mutates the filesystem by creating the backup directory
before discovery.  So a mutation occurs with no confirmation gate. -/
theorem C7_counterexample_no_gate :
    optRunFS (mainOpt noFail orcC7 fsC7) ≠ fsC7 ∧
      optRunFS (mainOpt noFail orcC7 fsC7) = ⟨[], [BACKUP_DIR, ASSETS_DIR]⟩ := by decide

/-- Claim C7 as amended: in the rename-fix workflow a mutation implies
the answer was a recognized yes-variant (and an unreadable stream never
mutates), while the optimization workflow mutates with no confirmation
gate at all. -/
theorem C7_amended_fix_gated_opt_ungated :
    (∀ (bad : FailOracle) (fs : FS) (a : String),
       (mainFix bad fs (some a)).fs ≠ fs → isYes a = true) ∧
    (∀ (bad : FailOracle) (fs : FS), (mainFix bad fs none).fs = fs) ∧
    optRunFS (mainOpt noFail orcC7 fsC7) ≠ fsC7 := by
  refine ⟨?_, ?_, by decide⟩
  · intro bad fs a hmut
    by_cases hy : isYes a = true
    · exact hy
    · exfalso
      apply hmut
      have hno : isYes a = false := by simpa using hy
      simp only [mainFix]
      by_cases hdir : ASSETS_DIR ∈ fs.dirs
      · rw [if_pos hdir]
        by_cases hf : find_optimized_files fs = []
        · simp [hf]
        · simp [hf, hno]
      · rw [if_neg hdir]
  · intro bad fs
    simp only [mainFix]
    by_cases hdir : ASSETS_DIR ∈ fs.dirs
    · rw [if_pos hdir]
      by_cases hf : find_optimized_files fs = []
      · simp [hf]
      · simp [hf]
    · rw [if_neg hdir]

theorem C7_amended_fix_gated_opt_ungated_witness : isYes ("s") = true :=
  C7_amended_fix_gated_opt_ungated.1 noFail fsW5 ("s") (by decide)

/-- Claim C8 as amended: a confirmed run in which every discovered file
is processed (all succeed under `noFail`, and the failure list is empty)
leaves zero actionable files for a second run, provided no discovered
file's computed destination name itself matches the `-optimized`
discovery pattern — removing every occurrence of the marker can
otherwise create a fresh match. -/
theorem C8_amended_idempotent :
    ∀ (fs : FS) (a : String),
      ASSETS_DIR ∈ fs.dirs →
      isYes a = true →
      (∀ p, p ∈ find_optimized_files fs → matchedNameB (get_original_name p) = false) →
      (mainFix noFail fs (some a)).failed = [] ∧
      find_optimized_files ((mainFix noFail fs (some a)).fs) = [] := by
  intro fs a hdir hyes hdest
  simp only [mainFix, if_pos hdir]
  by_cases hf : find_optimized_files fs = []
  · simp only [hf, if_pos rfl]
    exact ⟨rfl, hf⟩
  · simp only [hf, if_neg, if_false, hyes, if_true]
    constructor
    · exact runFixBatch_noFail_failed (find_optimized_files fs) (fs.addDir BACKUP_DIR) 0 []
    · apply List.eq_nil_iff_forall_not_mem.mpr
      intro q hq
      rw [mem_find_optimized_iff] at hq
      obtain ⟨hmem, hscope, hmatch⟩ := hq
      have hinv : ∀ q2, ((fs.addDir BACKUP_DIR).lookup q2).isSome = true →
          matchedNameB q2 = true → q2 ∈ find_optimized_files fs := by
        intro q2 hq2 hm2
        rw [lookup_addDir] at hq2
        rcases (Bool.and_eq_true _ _).mp hm2 with ⟨hs2, hm2b⟩
        rw [mem_find_optimized_iff]
        exact ⟨(lookup_isSome_iff_mem_paths fs q2).mp hq2, hs2, hm2b⟩
      have hsome : (((runFixBatch noFail (fs.addDir BACKUP_DIR) 0 []
          (find_optimized_files fs)).1.lookup q)).isSome = true :=
        (lookup_isSome_iff_mem_paths _ q).mpr hmem
      have hcleared := runFixBatch_clears (find_optimized_files fs)
        (fs.addDir BACKUP_DIR) 0 [] hinv hdest q hsome
      simp only [matchedNameB, hscope, hmatch] at hcleared
      simp at hcleared

/-- Claim C8 counterexample: `-opt-optimizedimized-optimized.glb` is
discovered (it ends in `-optimized.glb`); removing every occurrence of
the marker from its stem yields the stem `-optimized`, so the confirmed
first run succeeds on every file (one success, no failures) yet renames
the file to `-optimized.glb`, which the second run discovers again —
the second run does not find zero actionable files. -/
theorem C8_counterexample_rename_creates_match :
    (mainFix noFail fsC8 (some ("s"))).okCount = 1 ∧
      (mainFix noFail fsC8 (some ("s"))).failed = [] ∧
      find_optimized_files ((mainFix noFail fsC8 (some ("s"))).fs) =
        [⟨ASSETS_DIR, "-optimized.glb"⟩] := by decide

theorem C8_amended_idempotent_witness :
    (mainFix noFail fsW5 (some ("sim"))).failed = [] ∧
      find_optimized_files ((mainFix noFail fsW5 (some ("sim"))).fs) = [] :=
  C8_amended_idempotent fsW5 ("sim") (by decide) (by decide) (by decide)
